import Mathlib

/-!
Shallow embedding of the worktree-lifecycle core of the `ccs` tool
(src/cleanup.rs, src/git.rs, src/config.rs), together with theorems
settling the specification claims about it.

Paths are modelled as lists of components (`Path := List String`),
mirroring how Rust's `PathBuf` equality compares component lists.
External effects (git child processes, file metadata, the container
engine) are modelled as explicit oracle inputs recording exactly the
observations the code makes of them.
-/

namespace Ccs

/-- A filesystem path, as its list of components (Rust `PathBuf`
equality is component-wise, which this models directly). -/
abbrev Path := List String

/-- Result of `should_cleanup_worktree` (src/cleanup.rs, `CleanupDecision`). -/
inductive CleanupDecision where
  | Remove (reason : String)
  | Keep (reason : String)
deriving DecidableEq, Repr

/-- Observations of the external world made for one cleanup candidate:
* `hasGitEntry` — whether `<candidate>/.git` exists (file or directory);
* `statusOutput` — result of `git status --porcelain`: `none` when the
  process could not be spawned (`Err`), otherwise
  `some (exitSuccess, stdoutNonempty)`;
* `branchOutput` — result of `git branch --show-current`: `none` when the
  process could not be spawned, otherwise `some` of the trimmed stdout;
* `logOutput base` — result of `git log base..HEAD --oneline`: `none`
  when the process could not be spawned or exited non-zero, otherwise
  `some` of whether stdout was nonempty;
* `age` — `none` when metadata, mtime, or `duration_since` failed,
  otherwise `some` of the whole seconds elapsed since last modification. -/
structure WtInfo where
  hasGitEntry : Bool
  statusOutput : Option (Bool × Bool)
  branchOutput : Option String
  logOutput : String → Option Bool
  age : Option Nat

/-- `has_uncommitted_changes` (src/cleanup.rs lines 169-179): on a spawn
error assume changes; otherwise report whether stdout of
`git status --porcelain` is nonempty.  The exit status carried in the
`Ok` output is not consulted by the source. -/
def has_uncommitted_changes (statusOutput : Option (Bool × Bool)) : Bool :=
  match statusOutput with
  | some o => o.2
  | none => true

/-- The fixed base-branch candidates tried by `has_unmerged_commits`
(src/cleanup.rs line 200), in order. -/
def baseBranches : List String := ["main", "master", "origin/main", "origin/master"]

/-- The `for base in [...]` loop of `has_unmerged_commits`: return the
answer of the first base whose `git log` query succeeded, `none` if none
succeeded. -/
def firstLogAnswer (logOutput : String → Option Bool) : List String → Option Bool
  | [] => none
  | b :: bs =>
    match logOutput b with
    | some r => some r
    | none => firstLogAnswer logOutput bs

/-- `has_unmerged_commits` (src/cleanup.rs lines 181-215): spawn failure
of the branch query means "assume unmerged"; a current branch literally
named `main`/`master` is never unmerged; otherwise the first successful
`git log base..HEAD` query decides (nonempty stdout = unmerged), and if
no query succeeds the result is "assume unmerged". -/
def has_unmerged_commits (branchOutput : Option String)
    (logOutput : String → Option Bool) : Bool :=
  match branchOutput with
  | none => true
  | some branch =>
    if branch = "main" || branch = "master" then
      false
    else
      match firstLogAnswer logOutput baseBranches with
      | some r => r
      | none => true

/-- `should_cleanup_worktree` (src/cleanup.rs lines 130-167), with the
candidate's external observations supplied as `info`.  Rules in source
order: running container, `.git` pointer presence, uncommitted changes,
unmerged commits, grace window, final removal. -/
def should_cleanup_worktree (worktree_path : Path) (running_containers : List Path)
    (info : WtInfo) : CleanupDecision :=
  if running_containers.any (fun p => p = worktree_path) then
    .Keep "container is running"
  else if !info.hasGitEntry then
    .Remove "not a git worktree"
  else if has_uncommitted_changes info.statusOutput then
    .Keep "has uncommitted changes"
  else if has_unmerged_commits info.branchOutput info.logOutput then
    .Keep "branch has unmerged commits"
  else
    match info.age with
    | some d => if d < 3600 then .Keep "recently modified" else .Remove "no changes, no running container"
    | none => .Remove "no changes, no running container"

/-- Error type of src/git.rs (`GitError`); payloads kept where the
claims need them, the `git2`/`Io` payloads reduced to a message. -/
inductive GitError where
  | NotARepo (p : Path)
  | Git2 (msg : String)
  | NoRepoName
  | CannotCreateFromWorktree
  | WorktreeExists (p : Path)
  | BranchExists (name : String)
  | BranchNotFound (name : String)
  | Io
deriving DecidableEq, Repr

/-- `GitContext` (src/git.rs lines 36-49). -/
structure GitContext where
  workspace_path : Path
  shared_git_dir : Option Path
  repo_name : String
  is_worktree : Bool
deriving DecidableEq, Repr

/-- Abstraction of the `git2::Repository` value, recording exactly the
observations src/git.rs makes of it: `repo.is_worktree()`,
`repo.path()` (the git directory) and `repo.workdir()`. -/
structure RepoAbs where
  isWorktreeFlag : Bool
  gitPath : Path
  workdir : Option Path

/-- Rust `Path::file_name` on the component model: the last component,
except that `..` and the empty (root) component have no file name. -/
def path_file_name (p : Path) : Option String :=
  match p.getLast? with
  | some c => if c = ".." || c = "" then none else some c
  | none => none

/-- `GitContext::find_common_git_dir` (src/git.rs lines 81-98): if the
parent of the git directory is named `worktrees`, return that parent's
parent (`<main>/.git`), else `None`. -/
def find_common_git_dir (gitPath : Path) : Option Path :=
  if gitPath = [] then none
  else if path_file_name gitPath.dropLast = some "worktrees" then
    some gitPath.dropLast.dropLast
  else none

/-- `GitContext::extract_repo_name` (src/git.rs lines 195-219): walk to
the main git directory, strip a final `.git` component, and take the
resulting directory's file name; `NoRepoName` when that fails. -/
def extract_repo_name (repo : RepoAbs) : Except GitError String :=
  let git_dir := repo.gitPath
  let main_git_dir :=
    if repo.isWorktreeFlag then (find_common_git_dir git_dir).getD git_dir else git_dir
  let repo_root : Option Path :=
    if main_git_dir.getLast? = some ".git" then some main_git_dir.dropLast
    else some main_git_dir
  match repo_root.bind path_file_name with
  | some n => .ok n
  | none => .error .NoRepoName

/-- `GitContext::detect` (src/git.rs lines 53-78), for an already
discovered repository (a failing `Repository::discover` yields
`NotARepo` before any of this runs and produces no context). -/
def detect (repo : RepoAbs) (path : Path) : Except GitError GitContext :=
  let is_worktree := repo.isWorktreeFlag
  match repo.workdir with
  | none => .error (.NotARepo path)
  | some workspace_path =>
    match extract_repo_name repo with
    | .error e => .error e
    | .ok repo_name =>
      let shared_git_dir :=
        if is_worktree then find_common_git_dir repo.gitPath else none
      .ok ⟨workspace_path, shared_git_dir, repo_name, is_worktree⟩

/-- Filesystem-and-branches state threaded through
`GitContext::create_worktree`: the set of existing paths, and the local
branch names of the repository. -/
structure ProvisionState where
  fs : List Path
  branches : List String
deriving DecidableEq, Repr

/-- Add a path to the filesystem if not already present. -/
def addPath (fs : List Path) (p : Path) : List Path :=
  if p ∈ fs then fs else fs ++ [p]

/-- `std::fs::create_dir_all`: create the directory and every missing
ancestor (the root prefix `[]` is never created). -/
def create_dir_all (fs : List Path) (p : Path) : List Path :=
  (List.inits p).foldl (fun acc q => if q = [] then acc else addPath acc q) fs

/-- Oracles for the remaining external effects of `create_worktree`:
whether `repo.head()`/`peel_to_commit()`/`repo.branch()` succeed,
whether the `git worktree add` child process exits zero, and the result
of `worktree_path.canonicalize()`. -/
structure ProvisionOracles where
  headOk : Bool
  wtAddOk : Bool
  canonical : Path → Option Path

/-- Branch resolution step of `create_worktree` (src/git.rs lines
136-164): with `create_branch` a new branch is created from head unless
it already exists; without it the branch must already exist, and the
reference name is returned. -/
def resolveBranchRef (create_branch : Bool) (branch_name : String) (headOk : Bool)
    (st1 : ProvisionState) : Except GitError (ProvisionState × String) :=
  if create_branch then
    if !headOk then .error (.Git2 "head")
    else if branch_name ∈ st1.branches then .error (.BranchExists branch_name)
    else .ok ({ st1 with branches := st1.branches ++ [branch_name] },
              "refs/heads/" ++ branch_name)
  else
    if branch_name ∈ st1.branches then .ok (st1, "refs/heads/" ++ branch_name)
    else .error (.BranchNotFound branch_name)

/-- Tail of `create_worktree` once the worktree/name/workdir checks have
passed: existence check on the target, branch resolution, external
worktree materialization, canonicalize (src/git.rs lines 129-192). -/
def createAfterChecks (gitPath : Path) (repo_name : String) (branch_name : String)
    (create_branch : Bool) (worktree_base : Path) (orc : ProvisionOracles)
    (st1 : ProvisionState) : Except GitError GitContext × ProvisionState :=
  if worktree_base ++ [branch_name] ∈ st1.fs then
    (.error (.WorktreeExists (worktree_base ++ [branch_name])), st1)
  else
    match resolveBranchRef create_branch branch_name orc.headOk st1 with
    | .error e => (.error e, st1)
    | .ok (st2, _reference) =>
      if !orc.wtAddOk then (.error (.Git2 "Failed to create worktree"), st2)
      else
        match orc.canonical (worktree_base ++ [branch_name]) with
        | none =>
          (.error .Io, { st2 with fs := addPath st2.fs (worktree_base ++ [branch_name]) })
        | some canon =>
          (.ok ⟨canon, some gitPath, repo_name, true⟩,
           { st2 with fs := addPath st2.fs (worktree_base ++ [branch_name]) })

/-- `GitContext::create_worktree` (src/git.rs lines 101-192), with the
worktree base directory (`config.resolve_worktree_path(...)`) supplied
already resolved.  Returns the operation's outcome together with the
final state; steps in source order: worktree guard, repository name,
workdir, `create_dir_all` on the base, then `createAfterChecks`. -/
def create_worktree (repo : RepoAbs) (repo_path : Path) (branch_name : String)
    (create_branch : Bool) (worktree_base : Path) (orc : ProvisionOracles)
    (st : ProvisionState) : Except GitError GitContext × ProvisionState :=
  if repo.isWorktreeFlag then (.error .CannotCreateFromWorktree, st)
  else
    match extract_repo_name repo with
    | .error e => (.error e, st)
    | .ok repo_name =>
      match repo.workdir with
      | none => (.error (.NotARepo repo_path), st)
      | some _workdir =>
        createAfterChecks repo.gitPath repo_name branch_name create_branch worktree_base
          orc { st with fs := create_dir_all st.fs worktree_base }

/-- A filesystem path set is ancestor-closed: the parent of every
existing path, when it is not the root `[]`, also exists.  True of real
directory trees. -/
def ancestorClosed (fs : List Path) : Prop :=
  ∀ p ∈ fs, p.dropLast ≠ [] → p.dropLast ∈ fs

instance (fs : List Path) : Decidable (ancestorClosed fs) := by
  unfold ancestorClosed
  infer_instance

/-- Split a character list at a separator; like Rust `str::split` with
a one-character pattern (always at least one piece). -/
def splitOnChar (sep : Char) : List Char → List (List Char)
  | [] => [[]]
  | c :: t =>
    if c = sep then [] :: splitOnChar sep t
    else
      match splitOnChar sep t with
      | [] => [[c]]
      | h :: t2 => (c :: h) :: t2

/-- Split a string at a one-character separator. -/
def strSplitChar (sep : Char) (s : String) : List String :=
  (splitOnChar sep s.data).map (fun cs => String.mk cs)

/-- Rust `PathBuf::from` on the component model: split on `/`, dropping
empty and `.` components after the first (Rust's `Components` iterator
normalizes duplicate separators, a trailing separator, and interior `.`
segments, but keeps a leading root or `.`). -/
def pathComponents (s : String) : Path :=
  match strSplitChar '/' s with
  | [] => []
  | c :: cs => c :: cs.filter (fun x => x != "" && x != ".")

/-- Strip one trailing carriage return. -/
def stripCR (l : List Char) : List Char :=
  if l.getLast? = some '\r' then l.dropLast else l

/-- Rust `str::lines`: split on newlines, strip a trailing carriage
return per line, and produce no final empty line for input ending in a
newline. -/
def rustLines (s : String) : List String :=
  if ((splitOnChar '\n' s.data).map (fun l => String.mk (stripCR l))).getLast? = some "" then
    ((splitOnChar '\n' s.data).map (fun l => String.mk (stripCR l))).dropLast
  else
    (splitOnChar '\n' s.data).map (fun l => String.mk (stripCR l))

/-- Contiguous-sublist containment test on lists. -/
def listContainsSub (l pat : List Char) : Bool :=
  match l with
  | [] => pat.isEmpty
  | _ :: t => List.isPrefixOf pat l || listContainsSub t pat

/-- Substring containment, Rust `str::contains` for a literal needle. -/
def strContainsSub (s pat : String) : Bool :=
  listContainsSub s.data pat.data

/-- Rust `str::trim`: remove leading and trailing whitespace. -/
def strTrim (s : String) : String :=
  String.mk (((s.data.dropWhile Char.isWhitespace).reverse.dropWhile
    Char.isWhitespace).reverse)

/-- The data-directory needle used to recognize worktree mounts
(src/cleanup.rs line 241). -/
def mountsNeedle : String := "/.local/share/ccs/"

/-- Per line of container-engine output: the first comma-separated
fragment containing the data-directory needle (src/cleanup.rs lines
240-241). -/
def firstCcsFragment (line : String) : Option String :=
  (strSplitChar ',' line).find? (fun part => strContainsSub part mountsNeedle)

/-- `get_running_container_worktrees` (src/cleanup.rs lines 217-245)
applied to the stdout of a successful `ps` query: one path per line that
has a matching fragment, the fragment trimmed and parsed.  Runtime
detection failure or a failing `ps` yield an empty list before this
parsing is reached. -/
def get_running_container_worktrees (ps_stdout : String) : List Path :=
  (rustLines ps_stdout).filterMap (fun line =>
    (firstCcsFragment line).map (fun p => pathComponents (strTrim p)))

/-- One filesystem object: its path and whether it is a directory. -/
structure FsEntry where
  path : Path
  isDir : Bool
deriving DecidableEq, Repr

/-- A snapshot of the filesystem region the cleanup pass can observe. -/
abbrev Fs := List FsEntry

/-- `Path::exists`. -/
def fsExists (fs : Fs) (p : Path) : Bool :=
  fs.any (fun e => e.path == p)

/-- `Path::is_dir`. -/
def fsIsDir (fs : Fs) (p : Path) : Bool :=
  fs.any (fun e => e.path == p && e.isDir)

/-- `Path::is_file`. -/
def fsIsFile (fs : Fs) (p : Path) : Bool :=
  fs.any (fun e => e.path == p && !e.isDir)

/-- `q` is a direct child of `p`. -/
def isChildPath (q p : Path) : Bool :=
  q.length == p.length + 1 && q.take p.length == p

/-- `std::fs::read_dir`: the direct children of `p` present in `fs`. -/
def read_dir (fs : Fs) (p : Path) : List Path :=
  fs.filterMap (fun e => if isChildPath e.path p then some e.path else none)

/-- `q` lies at or below `root`. -/
def underPath (root q : Path) : Bool :=
  q.take root.length == root

/-- `std::fs::remove_dir_all`: drop `root` and everything below it. -/
def removeSubtree (fs : Fs) (root : Path) : Fs :=
  fs.filter (fun e => !underPath root e.path)

/-- `content.strip_prefix("gitdir: ")` on the pointer-file content
(src/cleanup.rs line 254). -/
def parse_gitdir (content : String) : Option String :=
  if List.isPrefixOf "gitdir: ".data content.data then
    some (String.mk (content.data.drop 8))
  else none

/-- `PathBuf::ancestors().find(|p| p.ends_with(".git"))`
(src/cleanup.rs lines 257-260): longest leading part of the pointed-to
git directory whose final component is `.git`. -/
def findMainGit (gitdir : Path) : Option Path :=
  (List.inits gitdir).reverse.find? (fun p => p.getLast? == some ".git")

/-- The `[worktree] base_path` setting of src/config.rs, the only part
of the configuration the cleanup path receives. -/
structure Config where
  worktree_base_path : String
deriving DecidableEq, Repr

/-- `CleanupResult` (src/cleanup.rs lines 13-20). -/
structure CleanupResult where
  removed : List Path
  kept : List Path
  errors : List String
deriving DecidableEq, Repr

/-- The empty `CleanupResult` (its `Default`). -/
def emptyCleanupResult : CleanupResult := ⟨[], [], []⟩

/-- Inputs of one `lazy_cleanup` pass: the observable filesystem, the
platform data directory (`dirs::data_dir()`), the container engine `ps`
stdout (`none` when runtime detection or the command failed, which the
source folds to an empty running set), the per-candidate git query
oracles as in `WtInfo`, the pointer-file reader, the success of
`git worktree remove --force` per candidate, and the `CCS_VERBOSE`
flag. -/
structure CleanupEnv where
  fs : Fs
  dataDir : Option Path
  psOutput : Option String
  statusQ : Path → Option (Bool × Bool)
  branchQ : Path → Option String
  logQ : Path → String → Option Bool
  ageQ : Path → Option Nat
  gitFileContent : Path → Option String
  wtRemoveOk : Path → Bool
  verbose : Bool

/-- `remove_worktree` (src/cleanup.rs lines 247-282): when the `.git`
pointer is a readable file of the form `gitdir: <dir>` whose target has
a `.git` ancestor, and the external `git worktree remove --force`
succeeds, the worktree directory disappears together with its
bookkeeping directory (the pointer's target); on any failure along this
path the fallback is a raw recursive removal of the worktree directory
(removal failures are not modelled — the frame claims concern where
mutations may happen). -/
def remove_worktree (env : CleanupEnv) (_config : Config) (fs : Fs) (wt : Path) : Fs :=
  if fsExists fs (wt ++ [".git"]) && fsIsFile fs (wt ++ [".git"]) then
    match env.gitFileContent (wt ++ [".git"]) with
    | some content =>
      match parse_gitdir content with
      | some gitdirStr =>
        match findMainGit (pathComponents (strTrim gitdirStr)) with
        | some _main_git =>
          if env.wtRemoveOk wt then
            removeSubtree (removeSubtree fs wt) (pathComponents (strTrim gitdirStr))
          else removeSubtree fs wt
        | none => removeSubtree fs wt
      | none => removeSubtree fs wt
    | none => removeSubtree fs wt
  else removeSubtree fs wt

/-- Body of the inner worktree loop of `lazy_cleanup` (src/cleanup.rs
lines 81-110): skip non-directories, classify, remove or record. -/
def processWorktree (env : CleanupEnv) (running : List Path) (config : Config)
    (acc : CleanupResult × Fs) (wt : Path) : CleanupResult × Fs :=
  if fsIsDir acc.2 wt then
    match should_cleanup_worktree wt running
        ⟨fsExists acc.2 (wt ++ [".git"]), env.statusQ wt, env.branchQ wt,
         env.logQ wt, env.ageQ wt⟩ with
    | .Remove _reason =>
      ({ acc.1 with removed := acc.1.removed ++ [wt] },
       remove_worktree env config acc.2 wt)
    | .Keep reason =>
      if env.verbose then
        ({ acc.1 with
            kept := acc.1.kept ++ [wt]
            errors := acc.1.errors ++ ["Kept: " ++ reason] }, acc.2)
      else acc
  else acc

/-- The empty-repository-directory pruning at the end of each repo
iteration (src/cleanup.rs lines 112-119). -/
def removeEmptyRepoDir (acc : CleanupResult × Fs) (repo_dir : Path) : CleanupResult × Fs :=
  if (read_dir acc.2 repo_dir).isEmpty then
    (acc.1, acc.2.filter (fun e => e.path != repo_dir))
  else acc

/-- Body of the outer repo loop of `lazy_cleanup` (src/cleanup.rs lines
69-120): skip non-directories, process each worktree entry, prune the
repo directory if now empty. -/
def processRepoDir (env : CleanupEnv) (running : List Path) (config : Config)
    (acc : CleanupResult × Fs) (repo_dir : Path) : CleanupResult × Fs :=
  if fsIsDir acc.2 repo_dir then
    removeEmptyRepoDir
      ((read_dir acc.2 repo_dir).foldl (processWorktree env running config) acc) repo_dir
  else acc

/-- `lazy_cleanup` (src/cleanup.rs lines 47-123): early return when the
platform data directory is unavailable or `<data-dir>/ccs` does not
exist; otherwise walk the two-level layout under `<data-dir>/ccs`.
Returns the report together with the final filesystem. -/
def lazy_cleanup (env : CleanupEnv) (config : Config) : CleanupResult × Fs :=
  match env.dataDir with
  | none => (emptyCleanupResult, env.fs)
  | some d =>
    if fsExists env.fs (d ++ ["ccs"]) then
      (read_dir env.fs (d ++ ["ccs"])).foldl
        (processRepoDir env
          (match env.psOutput with
           | some s => get_running_container_worktrees s
           | none => [])
          config)
        (emptyCleanupResult, env.fs)
    else (emptyCleanupResult, env.fs)

/-- The region `lazy_cleanup` is allowed to delete from, relative to
the scanned root `ccs = <data-dir>/ccs`: first-level repository
directories themselves, anything at or below a second-level worktree
directory, and anything at or below the bookkeeping target named by a
second-level candidate's `.git` pointer file. -/
def cleanupFootprint (env : CleanupEnv) (ccs : Path) (p : Path) : Prop :=
  (∃ r, p = ccs ++ [r]) ∨
  (∃ r w, underPath (ccs ++ [r, w]) p = true) ∨
  (∃ r w s g, env.gitFileContent (ccs ++ [r, w, ".git"]) = some s ∧
    parse_gitdir s = some g ∧ underPath (pathComponents (strTrim g)) p = true)

/-- The boolean membership test of rule 1 of `should_cleanup_worktree`
agrees with list membership (`PathBuf` equality is component equality). -/
theorem any_path_eq_iff (running : List Path) (wt : Path) :
    (running.any fun p => decide (p = wt)) = true ↔ wt ∈ running := by
  simp [List.any_eq_true]

/-- Membership failure silences rule 1 of `should_cleanup_worktree`. -/
theorem any_path_eq_false (running : List Path) (wt : Path) (h : wt ∉ running) :
    (running.any fun p => decide (p = wt)) = false := by
  simp only [List.any_eq_false, decide_eq_true_eq]
  intro x hx hxe
  exact h (hxe ▸ hx)

/-- Claim C1 (amended): `should_cleanup_worktree` returns `Remove` exactly
when the candidate is not in the running set and either lacks a `.git`
pointer entry, or is clean, merged, and the age query does not report an
age below 3600 seconds (it reports at least 3600 seconds, or it fails);
in every other case the decision is `Keep`.  Both ways in which this
differs from the claim as stated are exhibited by the counterexample. -/
theorem spec_c1_remove_iff (wtPath : Path) (running : List Path) (info : WtInfo) :
    (∃ r, should_cleanup_worktree wtPath running info = .Remove r) ↔
      (wtPath ∉ running ∧
        (info.hasGitEntry = false ∨
          (has_uncommitted_changes info.statusOutput = false ∧
           has_unmerged_commits info.branchOutput info.logOutput = false ∧
           ∀ d, info.age = some d → 3600 ≤ d))) := by
  unfold should_cleanup_worktree
  by_cases hrun : wtPath ∈ running
  · have ht : (running.any fun p => decide (p = wtPath)) = true :=
      (any_path_eq_iff running wtPath).mpr hrun
    simp [ht, hrun]
  · have hf : (running.any fun p => decide (p = wtPath)) = false :=
      any_path_eq_false running wtPath hrun
    rcases info with ⟨hasGit, status, branch, logQ, age⟩
    cases hasGit with
    | false => simp [hf, hrun]
    | true =>
      cases hstat : has_uncommitted_changes status with
      | true => simp [hf, hrun, hstat]
      | false =>
        cases hmerg : has_unmerged_commits branch logQ with
        | true => simp [hf, hrun, hstat, hmerg]
        | false =>
          cases age with
          | none => simp [hf, hrun, hstat, hmerg]
          | some d =>
            by_cases hd : d < 3600
            · simp [hf, hrun, hstat, hmerg, hd]
            · simp [hf, hrun, hstat, hmerg, hd]
              omega

/-- Claim C1 (counterexample): two candidates get `Remove` although the
five positive conditions of the claim do not all hold.  First, a
candidate that is not running and lacks the `.git` pointer is removed
as "not a git worktree" (`hasGitEntry` is false).  Second, a
not-running, valid, clean, merged candidate whose age query fails
(`age = none`, src/cleanup.rs lines 156-164: a metadata, mtime, or
`duration_since` error skips the grace-window `Keep`) falls through to
`Remove "no changes, no running container"`, although no last-modified
time at least 3600 seconds in the past was established. -/
theorem spec_c1_counterexample :
    should_cleanup_worktree ["wt"] []
        ⟨false, some (true, false), some "main", fun _ => some false, some 999999⟩ =
      .Remove "not a git worktree" ∧
    (⟨false, some (true, false), some "main", fun _ => some false, some 999999⟩ : WtInfo).hasGitEntry
      = false ∧
    should_cleanup_worktree ["wt2"] []
        ⟨true, some (true, false), some "main", fun _ => some false, none⟩ =
      .Remove "no changes, no running container" ∧
    (⟨true, some (true, false), some "main", fun _ => some false, none⟩ : WtInfo).age
      = none :=
  ⟨rfl, rfl, rfl, rfl⟩

/-- Claim C1 (witness): the amended characterization evaluated at a
concrete removable candidate. -/
theorem spec_c1_witness :
    ∃ r, should_cleanup_worktree ["wt"] []
        ⟨false, some (true, false), some "main", fun _ => some false, some 999999⟩ = .Remove r :=
  (spec_c1_remove_iff ["wt"] []
      ⟨false, some (true, false), some "main", fun _ => some false, some 999999⟩).mpr
    ⟨by decide, Or.inl rfl⟩

/-- Claim C2: a candidate present in the running-workspace set is kept
with reason "container is running", regardless of every other signal. -/
theorem spec_c2_running_precedence (wtPath : Path) (running : List Path) (info : WtInfo)
    (h : wtPath ∈ running) :
    should_cleanup_worktree wtPath running info = .Keep "container is running" := by
  unfold should_cleanup_worktree
  have ht : (running.any fun p => decide (p = wtPath)) = true :=
    (any_path_eq_iff running wtPath).mpr h
  simp [ht]

/-- Claim C2 (witness): concrete running candidate with every other
signal adversarial (no `.git` entry, all queries failing, no age). -/
theorem spec_c2_witness :
    should_cleanup_worktree ["a", "b"] [["a", "b"]]
        ⟨false, none, none, fun _ => none, none⟩ = .Keep "container is running" :=
  spec_c2_running_precedence ["a", "b"] [["a", "b"]]
    ⟨false, none, none, fun _ => none, none⟩ (by decide)

/-- Claim C3 (counterexample): a candidate that lacks the `.git` pointer
but is a member of the running set is kept as "container is running",
not removed as "not a git worktree" — the running check precedes the
structural check. -/
theorem spec_c3_counterexample :
    should_cleanup_worktree ["r", "w"] [["r", "w"]]
        ⟨false, none, none, fun _ => none, some 999999⟩ = .Keep "container is running" ∧
    (CleanupDecision.Keep "container is running") ≠ .Remove "not a git worktree" :=
  ⟨rfl, by decide⟩

/-- Claim C3 (amended): a candidate that is not in the running set and
lacks a `.git` pointer entry is removed as "not a git worktree",
regardless of age and of every other signal. -/
theorem spec_c3_nonworktree_removal (wtPath : Path) (running : List Path) (info : WtInfo)
    (h1 : wtPath ∉ running) (h2 : info.hasGitEntry = false) :
    should_cleanup_worktree wtPath running info = .Remove "not a git worktree" := by
  unfold should_cleanup_worktree
  have hf : (running.any fun p => decide (p = wtPath)) = false :=
    any_path_eq_false running wtPath h1
  simp [hf, h2]

/-- Claim C3 (witness): concrete non-running candidate without a `.git`
pointer, young age notwithstanding. -/
theorem spec_c3_witness :
    should_cleanup_worktree ["r", "w"] [["r", "x"]]
        ⟨false, none, none, fun _ => none, some 5⟩ = .Remove "not a git worktree" :=
  spec_c3_nonworktree_removal ["r", "w"] [["r", "x"]]
    ⟨false, none, none, fun _ => none, some 5⟩ (by decide) rfl

/-- Claim C4: for a non-running, valid, clean, merged candidate, age
3599 seconds yields `Keep "recently modified"` and age 3601 seconds
yields `Remove "no changes, no running container"`. -/
theorem spec_c4_grace_boundary (wtPath : Path) (running : List Path) (info : WtInfo)
    (h1 : wtPath ∉ running) (h2 : info.hasGitEntry = true)
    (h3 : has_uncommitted_changes info.statusOutput = false)
    (h4 : has_unmerged_commits info.branchOutput info.logOutput = false) :
    (info.age = some 3599 →
      should_cleanup_worktree wtPath running info = .Keep "recently modified") ∧
    (info.age = some 3601 →
      should_cleanup_worktree wtPath running info = .Remove "no changes, no running container") := by
  unfold should_cleanup_worktree
  have hf : (running.any fun p => decide (p = wtPath)) = false :=
    any_path_eq_false running wtPath h1
  constructor
  · intro hage
    simp [hf, h2, h3, h4, hage]
  · intro hage
    simp [hf, h2, h3, h4, hage]

/-- Claim C4 (witness): both sides of the boundary evaluated on concrete
candidates that differ only in age. -/
theorem spec_c4_witness :
    should_cleanup_worktree ["w"] []
        ⟨true, some (true, false), some "main", fun _ => some false, some 3599⟩ =
      .Keep "recently modified" ∧
    should_cleanup_worktree ["w"] []
        ⟨true, some (true, false), some "main", fun _ => some false, some 3601⟩ =
      .Remove "no changes, no running container" :=
  ⟨(spec_c4_grace_boundary ["w"] []
      ⟨true, some (true, false), some "main", fun _ => some false, some 3599⟩
      (by decide) rfl rfl rfl).1 rfl,
   (spec_c4_grace_boundary ["w"] []
      ⟨true, some (true, false), some "main", fun _ => some false, some 3601⟩
      (by decide) rfl rfl rfl).2 rfl⟩

/-- Claim C5: a current branch literally named main/master is never
reported unmerged; otherwise the first base branch whose log query
succeeds decides; if all queries fail on every base the answer defaults
to unmerged (hence `Keep`); and at the classifier level, for a
non-running valid clean candidate, `Keep "branch has unmerged commits"`
is produced exactly when `has_unmerged_commits` answers true. -/
theorem spec_c5_unmerged_rule (branch : String) (logQ : String → Option Bool) :
    (has_unmerged_commits (some "main") logQ = false ∧
     has_unmerged_commits (some "master") logQ = false) ∧
    (branch ≠ "main" → branch ≠ "master" →
      (∀ r, firstLogAnswer logQ baseBranches = some r →
          has_unmerged_commits (some branch) logQ = r) ∧
      (firstLogAnswer logQ baseBranches = none →
          has_unmerged_commits (some branch) logQ = true)) ∧
    ((∀ b ∈ baseBranches, logQ b = none) → firstLogAnswer logQ baseBranches = none) ∧
    (∀ (wtPath : Path) (running : List Path) (info : WtInfo), wtPath ∉ running →
      info.hasGitEntry = true → has_uncommitted_changes info.statusOutput = false →
      (should_cleanup_worktree wtPath running info = .Keep "branch has unmerged commits" ↔
        has_unmerged_commits info.branchOutput info.logOutput = true)) := by
  refine ⟨⟨rfl, rfl⟩, ?_, ?_, ?_⟩
  · intro h1 h2
    constructor
    · intro r hr
      simp [has_unmerged_commits, h1, h2, hr]
    · intro hr
      simp [has_unmerged_commits, h1, h2, hr]
  · intro hall
    simp only [baseBranches] at hall ⊢
    simp [firstLogAnswer, hall "main" (by simp), hall "master" (by simp),
      hall "origin/main" (by simp), hall "origin/master" (by simp)]
  · intro wtPath running info h1 h2 h3
    unfold should_cleanup_worktree
    have hf : (running.any fun p => decide (p = wtPath)) = false :=
      any_path_eq_false running wtPath h1
    cases hm : has_unmerged_commits info.branchOutput info.logOutput with
    | true => simp [hf, h2, h3, hm]
    | false =>
      simp only [hf, h2, h3, hm]
      cases info.age with
      | none => simp
      | some d =>
        by_cases hd : d < 3600 <;> simp [hd]

/-- Claim C5 (witness): branch "feature", main query failing, master
query succeeding with nonempty output: reported unmerged. -/
theorem spec_c5_witness :
    has_unmerged_commits (some "feature")
      (fun b => if b = "master" then some true else none) = true :=
  ((spec_c5_unmerged_rule "feature"
      (fun b => if b = "master" then some true else none)).2.1
    (by decide) (by decide)).1 true rfl

/-- Claim C6: the source of `has_uncommitted_changes` ignores the exit
status of `git status --porcelain`: a query that exits non-zero with
empty stdout is treated as "clean" and an otherwise eligible candidate
is then removed, where the specification requires a conservative
`Keep`. -/
theorem spec_c6_status_exit_ignored :
    has_uncommitted_changes (some (false, false)) = false ∧
    should_cleanup_worktree ["r", "w"] []
        ⟨true, some (false, false), some "main", fun _ => some false, some 999999⟩ =
      .Remove "no changes, no running container" :=
  ⟨rfl, rfl⟩

/-- In an ancestor-closed path set, every nonempty leading part of an
existing path exists. -/
theorem mem_of_ancestorClosed (fs : List Path) (hcl : ancestorClosed fs) :
    ∀ p, p ∈ fs → ∀ q, q <+: p → q ≠ [] → q ∈ fs := by
  intro p
  induction p using List.reverseRecOn with
  | nil =>
    intro _ q hq hne
    exact absurd (List.prefix_nil.mp hq) hne
  | append_singleton p c ih =>
    intro hp q hq hne
    rcases List.prefix_or_prefix_of_prefix hq (List.prefix_append p [c]) with h1 | h2
    · rcases List.eq_nil_or_concat p with hpnil | _
      · subst hpnil
        exact absurd (List.prefix_nil.mp h1) hne
      · have hpth : p ≠ [] := hne.elim ∘ fun hp0 => hp0 ▸ List.prefix_nil.mp (hp0 ▸ h1)
        have hpmem : p ∈ fs := by
          have := hcl _ hp
          rw [List.dropLast_concat] at this
          exact this hpth
        exact ih hpmem q h1 hne
    · by_cases hql : q.length = p.length + 1
      · have hq2 : q = p ++ [c] := hq.eq_of_length (by simpa using hql)
        exact hq2 ▸ hp
      · have hle : q.length ≤ p.length := by
          have := hq.length_le
          simp only [List.length_append, List.length_cons, List.length_nil] at this
          omega
        have hpq : p = q := h2.eq_of_length_le hle
        subst hpq
        have hpth : p.dropLast ≠ [] ∨ p.dropLast = [] := (em _).symm.imp id id
        have := hcl (p ++ [c]) hp
        rw [List.dropLast_concat] at this
        exact this hne

/-- Folding `addPath` over a list of paths that are all already present
leaves the path set unchanged. -/
theorem foldl_addPath_id : ∀ (l : List Path) (fs : List Path),
    (∀ q ∈ l, q ≠ [] → q ∈ fs) →
    l.foldl (fun acc q => if q = [] then acc else addPath acc q) fs = fs := by
  intro l
  induction l with
  | nil => intro fs _; rfl
  | cons a l ih =>
    intro fs h
    have step : (if a = [] then fs else addPath fs a) = fs := by
      by_cases ha : a = []
      · simp [ha]
      · simp [ha, addPath, h a (by simp) ha]
    rw [List.foldl_cons, step]
    exact ih fs (fun q hq hne => h q (by simp [hq]) hne)

/-- `create_dir_all` on a path whose target is covered by an existing
path (in an ancestor-closed set) creates nothing. -/
theorem create_dir_all_id (fs : List Path) (p cover : Path) (hcl : ancestorClosed fs)
    (hcov : cover ∈ fs) (hp : p <+: cover) : create_dir_all fs p = fs := by
  unfold create_dir_all
  refine foldl_addPath_id _ fs ?_
  intro q hq hne
  exact mem_of_ancestorClosed fs hcl cover hcov q
    ((List.mem_inits q p).mp hq |>.trans hp) hne

/-- Claim C7: when the computed target worktree path already exists (in
an ancestor-closed filesystem) and the call is not rejected earlier for
being made from a worktree, `create_worktree` fails with
`WorktreeExists` and leaves the filesystem and branch set untouched. -/
theorem spec_c7_worktree_exists_atomic (repo : RepoAbs) (repo_path : Path)
    (branch_name : String) (create_branch : Bool) (worktree_base : Path)
    (orc : ProvisionOracles) (st : ProvisionState)
    (hw : repo.isWorktreeFlag = false)
    (hcl : ancestorClosed st.fs)
    (hname : ∃ n, extract_repo_name repo = .ok n)
    (hwd : ∃ wd, repo.workdir = some wd)
    (hex : worktree_base ++ [branch_name] ∈ st.fs) :
    create_worktree repo repo_path branch_name create_branch worktree_base orc st =
      (.error (.WorktreeExists (worktree_base ++ [branch_name])), st) := by
  obtain ⟨n, hn⟩ := hname
  obtain ⟨wd, hwdeq⟩ := hwd
  have hcda : create_dir_all st.fs worktree_base = st.fs :=
    create_dir_all_id st.fs worktree_base (worktree_base ++ [branch_name]) hcl hex
      (List.prefix_append _ _)
  unfold create_worktree
  rw [hw]
  simp only [Bool.false_eq_true, if_false, hn, hwdeq, hcda]
  unfold createAfterChecks
  rw [if_pos hex]

/-- Claim C7 (witness): a concrete repository, an ancestor-closed
filesystem in which `<base>/feature-x` already exists. -/
theorem spec_c7_witness :
    create_worktree ⟨false, ["home", "u", "demo", ".git"], some ["home", "u", "demo"]⟩
        ["home", "u", "demo"] "feature-x" true ["home", "u", "wts", "demo"]
        ⟨true, true, fun p => some p⟩
        ⟨[["home"], ["home", "u"], ["home", "u", "wts"], ["home", "u", "wts", "demo"],
          ["home", "u", "wts", "demo", "feature-x"]], ["main"]⟩ =
      (.error (.WorktreeExists ["home", "u", "wts", "demo", "feature-x"]),
       ⟨[["home"], ["home", "u"], ["home", "u", "wts"], ["home", "u", "wts", "demo"],
         ["home", "u", "wts", "demo", "feature-x"]], ["main"]⟩) :=
  spec_c7_worktree_exists_atomic _ _ _ _ _ _ _ rfl (by decide) ⟨"demo", rfl⟩
    ⟨["home", "u", "demo"], rfl⟩ (by decide)

/-- Claim C8: every `GitContext` produced by `detect` (assuming git's
on-disk worktree layout `<main>/.git/worktrees/<name>`, which the spec
states in section 4.1) or by `create_worktree` satisfies
`shared_git_dir.isSome = is_worktree`. -/
theorem spec_c8_context_invariant :
    (∀ (repo : RepoAbs) (path : Path) (ctx : GitContext),
      (repo.isWorktreeFlag = true →
        ∃ pre name, repo.gitPath = pre ++ [".git", "worktrees", name]) →
      detect repo path = .ok ctx → ctx.shared_git_dir.isSome = ctx.is_worktree) ∧
    (∀ (repo : RepoAbs) (repo_path : Path) (branch_name : String) (create_branch : Bool)
        (worktree_base : Path) (orc : ProvisionOracles) (st : ProvisionState)
        (ctx : GitContext) (st' : ProvisionState),
      create_worktree repo repo_path branch_name create_branch worktree_base orc st =
        (.ok ctx, st') → ctx.shared_git_dir.isSome = ctx.is_worktree) := by
  constructor
  · intro repo path ctx hlayout h
    unfold detect at h
    cases hwd : repo.workdir with
    | none => rw [hwd] at h; exact absurd h (by simp)
    | some wd =>
      rw [hwd] at h
      cases hn : extract_repo_name repo with
      | error e => rw [hn] at h; exact absurd h (by simp)
      | ok name =>
        rw [hn] at h
        simp only [Except.ok.injEq] at h
        subst h
        cases hflag : repo.isWorktreeFlag with
        | false => simp [hflag]
        | true =>
          obtain ⟨pre, wtname, hgp⟩ := hlayout hflag
          have h1 : (pre ++ [".git", "worktrees", wtname]).dropLast
              = pre ++ [".git", "worktrees"] := by
            rw [show pre ++ [".git", "worktrees", wtname]
                = (pre ++ [".git", "worktrees"]) ++ [wtname] by simp]
            exact List.dropLast_concat
          have h2 : path_file_name (pre ++ [".git", "worktrees"]) = some "worktrees" := by
            unfold path_file_name
            rw [show pre ++ [".git", "worktrees"] = (pre ++ [".git"]) ++ ["worktrees"] by simp]
            simp
          have h4 : (pre ++ [".git", "worktrees"]).dropLast = pre ++ [".git"] := by
            rw [show pre ++ [".git", "worktrees"] = (pre ++ [".git"]) ++ ["worktrees"] by simp]
            exact List.dropLast_concat
          have h3 : find_common_git_dir repo.gitPath = some (pre ++ [".git"]) := by
            unfold find_common_git_dir
            rw [hgp, if_neg (by simp), h1, if_pos h2, h4]
          simp [hflag, h3]
  · intro repo repo_path branch_name create_branch worktree_base orc st ctx st' h
    unfold create_worktree at h
    split at h
    · simp at h
    · split at h
      · simp at h
      · split at h
        · simp at h
        · unfold createAfterChecks at h
          split at h
          · simp at h
          · split at h
            · simp at h
            · split at h
              · simp at h
              · split at h
                · simp at h
                · simp only [Prod.mk.injEq, Except.ok.injEq] at h
                  obtain ⟨hctx, -⟩ := h
                  subst hctx
                  rfl

/-- Claim C9 (counterexample): a mount fragment is not taken verbatim —
the matching fragment of this line carries a leading space, but the
discovered path is its trimmed parse, and the two differ as paths.
Moreover only the first matching fragment of a line is taken. -/
theorem spec_c9_counterexample :
    get_running_container_worktrees "a, /.local/share/ccs/repo/wt\n"
      = [pathComponents "/.local/share/ccs/repo/wt"] ∧
    firstCcsFragment "a, /.local/share/ccs/repo/wt" = some " /.local/share/ccs/repo/wt" ∧
    pathComponents " /.local/share/ccs/repo/wt" ≠ pathComponents "/.local/share/ccs/repo/wt" ∧
    get_running_container_worktrees "/.local/share/ccs/r/a,/.local/share/ccs/r/b\n"
      = [pathComponents "/.local/share/ccs/r/a"] :=
  ⟨by decide, by decide, by decide, by decide⟩

/-- Claim C9 (amended): the classifier keeps a candidate as "container
is running" exactly when the candidate is a component-for-component
member of the running set (no canonicalization), and the discovered
running set consists, per output line, of the first comma-separated
fragment containing the substring "/.local/share/ccs/", trimmed of
surrounding whitespace and parsed into components. -/
theorem spec_c9_running_membership :
    (∀ (wtPath : Path) (running : List Path) (info : WtInfo),
      should_cleanup_worktree wtPath running info = .Keep "container is running" ↔
        wtPath ∈ running) ∧
    (∀ (s : String) (p : Path),
      p ∈ get_running_container_worktrees s ↔
        ∃ line ∈ rustLines s, ∃ frag, firstCcsFragment line = some frag ∧
          p = pathComponents (strTrim frag)) := by
  constructor
  · intro wtPath running info
    by_cases h : wtPath ∈ running
    · have ht : (running.any fun p => decide (p = wtPath)) = true :=
        (any_path_eq_iff running wtPath).mpr h
      unfold should_cleanup_worktree
      simp [ht, h]
    · have hf : (running.any fun p => decide (p = wtPath)) = false :=
        any_path_eq_false running wtPath h
      unfold should_cleanup_worktree
      simp only [hf, Bool.false_eq_true, if_false, h, iff_false]
      split
      · simp
      · split
        · simp
        · split
          · simp
          · split
            · split <;> simp
            · simp
  · intro s p
    unfold get_running_container_worktrees
    rw [List.mem_filterMap]
    constructor
    · rintro ⟨line, hline, hmap⟩
      rcases Option.map_eq_some'.mp hmap with ⟨frag, hfr, hp⟩
      exact ⟨line, hline, frag, hfr, hp.symm⟩
    · rintro ⟨line, hline, frag, hfr, hp⟩
      refine ⟨line, hline, ?_⟩
      rw [hfr]
      simp [hp]

/-- Removing a subtree removes nothing outside it and adds nothing. -/
theorem removeSubtree_frame (fs : Fs) (root : Path) :
    removeSubtree fs root ⊆ fs ∧
    ∀ e ∈ fs, e ∉ removeSubtree fs root → underPath root e.path = true := by
  constructor
  · intro a ha
    exact (List.mem_filter.mp ha).1
  · intro e he hne
    by_cases h : underPath root e.path = true
    · exact h
    · exact absurd (List.mem_filter.mpr ⟨he, by simp [h]⟩) hne

/-- An entry not removed by `removeSubtree` either survives or lies
under the removed root. -/
theorem mem_removeSubtree_or (fs : Fs) (root : Path) (e : FsEntry) (he : e ∈ fs) :
    e ∈ removeSubtree fs root ∨ underPath root e.path = true := by
  by_cases h : underPath root e.path = true
  · exact Or.inr h
  · exact Or.inl (List.mem_filter.mpr ⟨he, by simp [h]⟩)

/-- `remove_worktree` deletes only below the worktree directory or
below the bookkeeping directory named by its `.git` pointer file, and
never adds entries. -/
theorem remove_worktree_frame (env : CleanupEnv) (config : Config) (fs : Fs) (wt : Path) :
    remove_worktree env config fs wt ⊆ fs ∧
    ∀ e ∈ fs, e ∉ remove_worktree env config fs wt →
      underPath wt e.path = true ∨
      ∃ s g, env.gitFileContent (wt ++ [".git"]) = some s ∧ parse_gitdir s = some g ∧
        underPath (pathComponents (strTrim g)) e.path = true := by
  have fb : removeSubtree fs wt ⊆ fs ∧
      ∀ e ∈ fs, e ∉ removeSubtree fs wt →
        underPath wt e.path = true ∨
        ∃ s g, env.gitFileContent (wt ++ [".git"]) = some s ∧ parse_gitdir s = some g ∧
          underPath (pathComponents (strTrim g)) e.path = true :=
    ⟨(removeSubtree_frame fs wt).1,
     fun e he hne => Or.inl ((removeSubtree_frame fs wt).2 e he hne)⟩
  unfold remove_worktree
  split
  · split
    · rename_i content hcontent
      split
      · rename_i gitdirStr hparse
        split
        · split
          · constructor
            · intro a ha
              exact (removeSubtree_frame fs wt).1
                ((removeSubtree_frame (removeSubtree fs wt)
                  (pathComponents (strTrim gitdirStr))).1 ha)
            · intro e he hne
              rcases mem_removeSubtree_or fs wt e he with h1 | h1
              · rcases mem_removeSubtree_or (removeSubtree fs wt)
                  (pathComponents (strTrim gitdirStr)) e h1 with h2 | h2
                · exact absurd h2 hne
                · exact Or.inr ⟨content, gitdirStr, hcontent, hparse, h2⟩
              · exact Or.inl h1
          · exact fb
        · exact fb
      · exact fb
    · exact fb
  · exact fb

/-- Members of `read_dir fs p` are direct children of `p`. -/
theorem read_dir_shape (fs : Fs) (p q : Path) (h : q ∈ read_dir fs p) :
    ∃ c, q = p ++ [c] := by
  unfold read_dir at h
  rw [List.mem_filterMap] at h
  obtain ⟨e, _he, heq⟩ := h
  by_cases hc : isChildPath e.path p = true
  · rw [if_pos hc] at heq
    have hq : e.path = q := Option.some.inj heq
    unfold isChildPath at hc
    rw [Bool.and_eq_true, beq_iff_eq, beq_iff_eq] at hc
    obtain ⟨hlen, htake⟩ := hc
    rw [hq] at hlen htake
    have hd : (q.drop p.length).length = 1 := by
      rw [List.length_drop, hlen]
      omega
    obtain ⟨c, hc2⟩ := List.length_eq_one.mp hd
    refine ⟨c, ?_⟩
    conv_lhs => rw [← List.take_append_drop p.length q]
    rw [htake, hc2]
  · rw [if_neg hc] at heq
    exact absurd heq (by simp)

/-- Frame property of a left fold whose every step shrinks the
filesystem component and deletes only within its own footprint. -/
theorem foldl_fs_frame {α : Type} (step : CleanupResult × Fs → α → CleanupResult × Fs)
    (P : α → FsEntry → Prop) :
    ∀ (l : List α),
      (∀ acc x, x ∈ l →
        (step acc x).2 ⊆ acc.2 ∧ ∀ e ∈ acc.2, e ∉ (step acc x).2 → P x e) →
      ∀ init : CleanupResult × Fs,
        (l.foldl step init).2 ⊆ init.2 ∧
        ∀ e ∈ init.2, e ∉ (l.foldl step init).2 → ∃ x ∈ l, P x e := by
  intro l
  induction l with
  | nil =>
    intro _ init
    exact ⟨fun a ha => ha, fun e he hne => absurd he hne⟩
  | cons a t ih =>
    intro hstep init
    obtain ⟨hsub1, hdel1⟩ := hstep init a (List.mem_cons_self a t)
    obtain ⟨hsub2, hdel2⟩ :=
      ih (fun acc x hx => hstep acc x (List.mem_cons_of_mem a hx)) (step init a)
    rw [List.foldl_cons]
    constructor
    · exact fun b hb => hsub1 (hsub2 hb)
    · intro e he hne
      by_cases hmid : e ∈ (step init a).2
      · obtain ⟨x, hx, hpx⟩ := hdel2 e hmid hne
        exact ⟨x, List.mem_cons_of_mem a hx, hpx⟩
      · exact ⟨a, List.mem_cons_self a t, hdel1 e he hmid⟩

/-- One worktree step of the cleanup loop deletes only within the
footprint of its candidate. -/
theorem processWorktree_frame (env : CleanupEnv) (running : List Path) (config : Config)
    (acc : CleanupResult × Fs) (wt : Path) :
    (processWorktree env running config acc wt).2 ⊆ acc.2 ∧
    ∀ e ∈ acc.2, e ∉ (processWorktree env running config acc wt).2 →
      underPath wt e.path = true ∨
      ∃ s g, env.gitFileContent (wt ++ [".git"]) = some s ∧ parse_gitdir s = some g ∧
        underPath (pathComponents (strTrim g)) e.path = true := by
  unfold processWorktree
  split
  · split
    · exact remove_worktree_frame env config acc.2 wt
    · split
      · exact ⟨fun a ha => ha, fun e he hne => absurd he hne⟩
      · exact ⟨fun a ha => ha, fun e he hne => absurd he hne⟩
  · exact ⟨fun a ha => ha, fun e he hne => absurd he hne⟩

/-- The empty-repo-directory pruning deletes at most the repo directory
entry itself. -/
theorem removeEmptyRepoDir_frame (acc : CleanupResult × Fs) (repo_dir : Path) :
    (removeEmptyRepoDir acc repo_dir).2 ⊆ acc.2 ∧
    ∀ e ∈ acc.2, e ∉ (removeEmptyRepoDir acc repo_dir).2 → e.path = repo_dir := by
  unfold removeEmptyRepoDir
  split
  · constructor
    · intro a ha
      exact (List.mem_filter.mp ha).1
    · intro e he hne
      by_cases h : e.path = repo_dir
      · exact h
      · exact absurd (List.mem_filter.mpr ⟨he, by simp [h]⟩) hne
  · exact ⟨fun a ha => ha, fun e he hne => absurd he hne⟩

/-- One repo-directory step of the cleanup loop deletes only the repo
directory itself or within the footprint of one of its children. -/
theorem processRepoDir_frame (env : CleanupEnv) (running : List Path) (config : Config)
    (acc : CleanupResult × Fs) (repo_dir : Path) :
    (processRepoDir env running config acc repo_dir).2 ⊆ acc.2 ∧
    ∀ e ∈ acc.2, e ∉ (processRepoDir env running config acc repo_dir).2 →
      e.path = repo_dir ∨
      ∃ w, underPath (repo_dir ++ [w]) e.path = true ∨
        ∃ s g, env.gitFileContent (repo_dir ++ [w] ++ [".git"]) = some s ∧
          parse_gitdir s = some g ∧
          underPath (pathComponents (strTrim g)) e.path = true := by
  unfold processRepoDir
  split
  · obtain ⟨hsubF, hdelF⟩ := foldl_fs_frame (processWorktree env running config)
      (fun wt e => underPath wt e.path = true ∨
        ∃ s g, env.gitFileContent (wt ++ [".git"]) = some s ∧ parse_gitdir s = some g ∧
          underPath (pathComponents (strTrim g)) e.path = true)
      (read_dir acc.2 repo_dir)
      (fun a x _hx => processWorktree_frame env running config a x) acc
    obtain ⟨hsubE, hdelE⟩ := removeEmptyRepoDir_frame
      ((read_dir acc.2 repo_dir).foldl (processWorktree env running config) acc) repo_dir
    constructor
    · exact fun a ha => hsubF (hsubE ha)
    · intro e he hne
      by_cases hmid :
        e ∈ ((read_dir acc.2 repo_dir).foldl (processWorktree env running config) acc).2
      · exact Or.inl (hdelE e hmid hne)
      · obtain ⟨x, hx, hpx⟩ := hdelF e he hmid
        obtain ⟨w, rfl⟩ := read_dir_shape acc.2 repo_dir x hx
        exact Or.inr ⟨w, hpx⟩
  · exact ⟨fun a ha => ha, fun e he hne => absurd he hne⟩

/-- Claim C10: the cleanup pass returns an empty report and leaves the
filesystem untouched when the platform data directory is unavailable or
`<data-dir>/ccs` does not exist; its outcome is independent of the
configured worktree base path; it never creates entries; and every
entry it deletes lies in the fixed footprint under `<data-dir>/ccs`
(first-level repo directories, second-level worktree subtrees, and the
bookkeeping targets of their `.git` pointer files). -/
theorem spec_c10_cleanup_frame (env : CleanupEnv) (config config2 : Config) :
    (env.dataDir = none → lazy_cleanup env config = (emptyCleanupResult, env.fs)) ∧
    (∀ d, env.dataDir = some d → fsExists env.fs (d ++ ["ccs"]) = false →
      lazy_cleanup env config = (emptyCleanupResult, env.fs)) ∧
    lazy_cleanup env config = lazy_cleanup env config2 ∧
    (lazy_cleanup env config).2 ⊆ env.fs ∧
    (∀ e ∈ env.fs, e ∉ (lazy_cleanup env config).2 →
      ∃ d, env.dataDir = some d ∧ cleanupFootprint env (d ++ ["ccs"]) e.path) := by
  have hfold : ∀ (d : Path) (R : List Path),
      ((read_dir env.fs (d ++ ["ccs"])).foldl (processRepoDir env R config)
        (emptyCleanupResult, env.fs)).2 ⊆ env.fs ∧
      ∀ e ∈ env.fs,
        e ∉ ((read_dir env.fs (d ++ ["ccs"])).foldl (processRepoDir env R config)
          (emptyCleanupResult, env.fs)).2 →
        ∃ x ∈ read_dir env.fs (d ++ ["ccs"]),
          e.path = x ∨
          ∃ w, underPath (x ++ [w]) e.path = true ∨
            ∃ s g, env.gitFileContent (x ++ [w] ++ [".git"]) = some s ∧
              parse_gitdir s = some g ∧
              underPath (pathComponents (strTrim g)) e.path = true := by
    intro d R
    exact foldl_fs_frame (processRepoDir env R config)
      (fun x e => e.path = x ∨
        ∃ w, underPath (x ++ [w]) e.path = true ∨
          ∃ s g, env.gitFileContent (x ++ [w] ++ [".git"]) = some s ∧
            parse_gitdir s = some g ∧
            underPath (pathComponents (strTrim g)) e.path = true)
      (read_dir env.fs (d ++ ["ccs"]))
      (fun a x _hx => processRepoDir_frame env R config a x)
      (emptyCleanupResult, env.fs)
  refine ⟨?_, ?_, ?_, ?_, ?_⟩
  · intro h
    unfold lazy_cleanup
    rw [h]
  · intro d hd hex
    unfold lazy_cleanup
    rw [hd]
    simp only [hex, Bool.false_eq_true, if_false]
  · have hpw : ∀ (R : List Path),
        processWorktree env R config = processWorktree env R config2 := by
      intro R
      funext a w
      unfold processWorktree remove_worktree
      rfl
    have hpr : ∀ (R : List Path),
        processRepoDir env R config = processRepoDir env R config2 := by
      intro R
      funext a rd
      unfold processRepoDir
      rw [hpw]
    unfold lazy_cleanup
    cases hdd : env.dataDir with
    | none => rfl
    | some d => rw [hpr]
  · unfold lazy_cleanup
    split
    · exact fun a ha => ha
    · split
      · exact (hfold _ _).1
      · exact fun a ha => ha
  · intro e he hne
    revert hne
    unfold lazy_cleanup
    split
    · exact fun hne => absurd he hne
    · split
      · rename_i d heq hcond
        intro hne
        obtain ⟨x, hx, hpx⟩ := (hfold d _).2 e he hne
        obtain ⟨r, rfl⟩ := read_dir_shape env.fs (d ++ ["ccs"]) x hx
        refine ⟨d, heq, ?_⟩
        unfold cleanupFootprint
        rcases hpx with hx1 | ⟨w, hw1 | ⟨s, g, hs, hg, hu⟩⟩
        · exact Or.inl ⟨r, hx1⟩
        · exact Or.inr (Or.inl ⟨r, w, by simpa using hw1⟩)
        · exact Or.inr (Or.inr ⟨r, w, s, g, by simpa using hs, hg, hu⟩)
      · intro hne
        exact absurd he hne

/-- Claim C10 (witness): both early-return cases evaluated concretely —
no data directory, and a data directory whose `ccs` subdirectory is
missing; the filesystem comes back untouched with an empty report. -/
theorem spec_c10_witness :
    lazy_cleanup ⟨[⟨["x"], true⟩], none, none, fun _ => none, fun _ => none,
        fun _ _ => none, fun _ => none, fun _ => none, fun _ => false, false⟩ ⟨"wts"⟩
      = (emptyCleanupResult, [⟨["x"], true⟩]) ∧
    lazy_cleanup ⟨[⟨["x"], true⟩], some ["d"], none, fun _ => none, fun _ => none,
        fun _ _ => none, fun _ => none, fun _ => none, fun _ => false, false⟩ ⟨"wts"⟩
      = (emptyCleanupResult, [⟨["x"], true⟩]) :=
  ⟨(spec_c10_cleanup_frame
      ⟨[⟨["x"], true⟩], none, none, fun _ => none, fun _ => none,
        fun _ _ => none, fun _ => none, fun _ => none, fun _ => false, false⟩
      ⟨"wts"⟩ ⟨"wts"⟩).1 rfl,
   (spec_c10_cleanup_frame
      ⟨[⟨["x"], true⟩], some ["d"], none, fun _ => none, fun _ => none,
        fun _ _ => none, fun _ => none, fun _ => none, fun _ => false, false⟩
      ⟨"wts"⟩ ⟨"wts"⟩).2.1 ["d"] rfl (by decide)⟩

/-- Claim C8 (witness): `detect` on a concrete worktree repository
yields a context with both sides of the invariant true. -/
theorem spec_c8_witness :
    ((⟨["m", "wt", "f"], some ["m", ".git"], "m", true⟩ : GitContext)).shared_git_dir.isSome
      = ((⟨["m", "wt", "f"], some ["m", ".git"], "m", true⟩ : GitContext)).is_worktree :=
  spec_c8_context_invariant.1 ⟨true, ["m", ".git", "worktrees", "f"], some ["m", "wt", "f"]⟩
    ["x"] _ (fun _ => ⟨["m"], "f", rfl⟩) rfl

end Ccs
